import Mathlib

/-!
Verification of the msq-rs master-server-query client.

This file shallowly embeds the parts of the repository relevant to the
frozen claims:

* src/packet_ext.rs : read_u8_veccheck (prefix matching against a byte
  cursor) and write_cstring (UTF-8 encoding of a string plus 0x00
  terminator).
* src/region.rs : the Region enumeration with as_u8 / from_u8.
* src/client.rs : Address, EMPTY_ADRESS, MSQClient::send (request packet
  construction), MSQClient::recv (the response-processing loop) and
  MSQClient::query_raw (the whole session).

Bytes are modelled as natural numbers; a Rust Cursor over a byte buffer is
modelled as the list of bytes not yet consumed (reading a u8 pops the
head, exactly what Cursor::read_u8 does).  The asynchronous transport is
modelled as the list of datagrams the socket will deliver, in order; the
result sink is modelled by collecting the pairs passed to sender.send in
order.  io::Result errors are modelled by explicit outcome values.
-/

namespace Msq

/-- Address models the struct Address of src/client.rs: four u8 octets. -/
structure Address where
  a : Nat
  b : Nat
  c : Nat
  d : Nat
deriving DecidableEq, Repr

/-- EMPTY_ADRESS models the constant of the same name in src/client.rs:
the all-zero address used as the list terminator.  Address::default()
in the code produces this same value. -/
def EMPTY_ADRESS : Address := ⟨0, 0, 0, 0⟩

/-- HEADER is the fixed response header sentinel checked in
MSQClient::recv: FF FF FF FF 66 0A. -/
def HEADER : List Nat := [0xFF, 0xFF, 0xFF, 0xFF, 0x66, 0x0A]

/-- read_u8_veccheck models ReadPacketExt::read_u8_veccheck from
src/packet_ext.rs.  The first argument is the unread remainder of the
cursor, the second is the cmp slice.  For each byte of cmp the code reads
one byte from the cursor (propagating an end-of-input error, modelled by
none) and returns Ok(false) as soon as a byte differs; it returns
Ok(true) after all bytes of cmp matched.  The returned list is the
remainder of the cursor after the call. -/
def read_u8_veccheck : List Nat → List Nat → Option (Bool × List Nat)
  | buf, [] => some (true, buf)
  | [], _ :: _ => none
  | sch :: buf, cch :: cmp =>
    if cch ≠ sch then some (false, buf) else read_u8_veccheck buf cmp

/-- utf8EncodeChar is the standard UTF-8 encoding of a single Unicode
code point, as performed by char::encode_utf8 in the write_cstring loop
of src/packet_ext.rs. -/
def utf8EncodeChar (c : Nat) : List Nat :=
  if c < 0x80 then [c]
  else if c < 0x800 then [0xC0 + c / 64, 0x80 + c % 64]
  else if c < 0x10000 then [0xE0 + c / 4096, 0x80 + c / 64 % 64, 0x80 + c % 64]
  else [0xF0 + c / 262144, 0x80 + c / 4096 % 64, 0x80 + c / 64 % 64, 0x80 + c % 64]

/-- utf8Str encodes a string, given as its list of Unicode code points,
to UTF-8: the concatenation of the encodings of its characters. -/
def utf8Str : List Nat → List Nat
  | [] => []
  | c :: cs => utf8EncodeChar c ++ utf8Str cs

/-- write_cstring models WritePacketExt::write_cstring from
src/packet_ext.rs applied to a cursor whose written contents so far are
buf: for each character of src it writes that character's UTF-8 bytes,
then writes a single 0x00 terminator. -/
def write_cstring (buf : List Nat) (src : List Nat) : List Nat :=
  (src.foldl (fun acc ch => acc ++ utf8EncodeChar ch) buf) ++ [0]

/-- utf8DecodeChar is the reference decode direction for one character
of the C-string round-trip property: the repository only encodes, so
decoding is the standard UTF-8 decoder (the lead byte determines the
sequence length, continuation bytes lie in 0x80..0xBF and carry six
payload bits each); it returns the decoded code point and the bytes that
follow its sequence, or fails on a malformed sequence. -/
def utf8DecodeChar (l : List Nat) : Option (Nat × List Nat) :=
  match l with
  | [] => none
  | b0 :: rest =>
    if b0 < 0x80 then some (b0, rest)
    else if b0 < 0xC0 then none
    else if b0 < 0xE0 then
      match rest with
      | b1 :: rest1 =>
        if 0x80 ≤ b1 ∧ b1 < 0xC0 then
          some ((b0 - 0xC0) * 64 + (b1 - 0x80), rest1)
        else none
      | [] => none
    else if b0 < 0xF0 then
      match rest with
      | b1 :: b2 :: rest2 =>
        if (0x80 ≤ b1 ∧ b1 < 0xC0) ∧ (0x80 ≤ b2 ∧ b2 < 0xC0) then
          some ((b0 - 0xE0) * 4096 + (b1 - 0x80) * 64 + (b2 - 0x80), rest2)
        else none
      | _ => none
    else if b0 < 0xF8 then
      match rest with
      | b1 :: b2 :: b3 :: rest3 =>
        if (0x80 ≤ b1 ∧ b1 < 0xC0) ∧ (0x80 ≤ b2 ∧ b2 < 0xC0) ∧
            (0x80 ≤ b3 ∧ b3 < 0xC0) then
          some ((b0 - 0xF0) * 262144 + (b1 - 0x80) * 4096 +
            (b2 - 0x80) * 64 + (b3 - 0x80), rest3)
        else none
      | _ => none
    else none

/-- utf8DecodeLoop decodes characters with utf8DecodeChar until the
input is exhausted.  Each decoded character consumes at least one input
byte, so the fuel argument only drives structural recursion: any fuel of
at least the input length gives the decoding of the whole input. -/
def utf8DecodeLoop : Nat → List Nat → Option (List Nat)
  | _, [] => some []
  | 0, _ :: _ => none
  | fuel + 1, b0 :: rest0 =>
    match utf8DecodeChar (b0 :: rest0) with
    | some (c, rest) => (utf8DecodeLoop fuel rest).map (fun cs => c :: cs)
    | none => none

/-- utf8Decode decodes a whole byte list as UTF-8, failing if it is not
the concatenation of well-formed character sequences. -/
def utf8Decode (l : List Nat) : Option (List Nat) := utf8DecodeLoop l.length l

/-- decDigitsCore renders n in decimal (ASCII code points, most
significant digit first, prepended to acc), as Rust's Display for
unsigned integers does inside the format! call of MSQClient::send.  The
fuel argument only drives structural recursion; any fuel above the digit
count gives the rendering. -/
def decDigitsCore (fuel : Nat) (n : Nat) (acc : List Nat) : List Nat :=
  match fuel with
  | 0 => acc
  | fuel + 1 =>
    if n < 10 then (n + 48) :: acc
    else decDigitsCore fuel (n / 10) ((n % 10 + 48) :: acc)

/-- decimal renders a natural number in decimal ASCII, as the {} format
specifier does for u8 / u16 values in MSQClient::send. -/
def decimal (n : Nat) : List Nat := decDigitsCore (n + 1) n []

/-- formatAddress models the format! call of MSQClient::send: the
dotted-quad rendering of the address followed by a colon and the port,
as a list of code points (all ASCII).  46 is the dot, 58 the colon. -/
def formatAddress (ad : Address) (port : Nat) : List Nat :=
  decimal ad.a ++ [46] ++ decimal ad.b ++ [46] ++ decimal ad.c ++ [46] ++
    decimal ad.d ++ [58] ++ decimal port

/-- writeU8 models WriteBytesExt::write_u8 on the packet cursor: append
one byte. -/
def writeU8 (buf : List Nat) (b : Nat) : List Nat := buf ++ [b]

/-- sendPacket models MSQClient::send from src/client.rs: starting from
an empty cursor it writes 0x31, the region code byte, the zero-terminated
rendering of the cursor address and port, and the zero-terminated filter
string, in that order; the resulting byte list is what is sent on the
socket. -/
def sendPacket (region_code : Nat) (filter_str : List Nat)
    (address : Address) (port : Nat) : List Nat :=
  write_cstring
    (write_cstring (writeU8 (writeU8 [] 0x31) region_code)
      (formatAddress address port))
    filter_str

/-- LoopResult is the outcome of the inner entry-decoding loop of
MSQClient::recv on one datagram: ok carries the pairs sent to the sink in
order, the final (last_address, last_port) cursor given the cursor at
entry to the loop, the end_of_list flag, and the unread remainder of the
buffer; err is an UnexpectedEof error propagated by a question-mark
operator inside the loop. -/
inductive LoopResult where
  | ok (sent : List (Address × Nat)) (last : Address × Nat) (eol : Bool)
      (rem : List Nat)
  | err
deriving DecidableEq, Repr

/-- decodeEntries models the inner while-let loop of MSQClient::recv over
the unread remainder of one datagram.  Reading the first address byte
with while let Ok(a) exits the loop gracefully at end of input; the
reads of the remaining three address octets and of the big-endian port
use the question-mark operator and so turn end of input into an error.
An all-zero address sets end_of_list and breaks before the port bytes
are read; any other address has its port read and the pair is sent to
the sink and becomes the new cursor. -/
def decodeEntries : List Nat → Address × Nat → LoopResult
  | [], last => .ok [] last false []
  | [_], _ => .err
  | [_, _], _ => .err
  | [_, _, _], _ => .err
  | a :: b :: c :: d :: rest, last =>
    if Address.mk a b c d = EMPTY_ADRESS then
      .ok [] last true rest
    else
      match rest with
      | [] => .err
      | [_] => .err
      | p0 :: p1 :: rest2 =>
        match decodeEntries rest2 (Address.mk a b c d, p0 * 256 + p1) with
        | .ok sent last2 eol rem =>
          .ok ((Address.mk a b c d, p0 * 256 + p1) :: sent) last2 eol rem
        | .err => .err

/-- Outcome models how MSQClient::recv terminates: ok is Ok(()),
headerMismatch is the "Mismatched starting sequence" error,
eofError is an UnexpectedEof propagated by a question-mark operator, and
transportExhausted marks the modelled transport running out of datagrams
while the code would still be awaiting recv. -/
inductive Outcome where
  | ok
  | headerMismatch
  | eofError
  | transportExhausted
deriving DecidableEq, Repr

/-- Round records one iteration of the outer while loop of
MSQClient::recv: the pairs delivered to the sink from that datagram and
the request packet sent at the bottom of the iteration (the code sends
this packet unconditionally, even on the iteration that saw the
terminator). -/
structure Round where
  entries : List (Address × Nat)
  request : List Nat
deriving DecidableEq, Repr

/-- recvLoop models the outer while !end_of_list loop of MSQClient::recv,
given the list of datagrams the socket will deliver and the current
(last_address, last_port) cursor.  Each iteration receives a datagram,
checks the six-byte header with read_u8_veccheck (returning the
mismatch error on false and propagating eof on a short all-matching
prefix), runs the entry loop, then sleeps and sends the next request
built from the updated cursor; the loop exits when end_of_list was set. -/
def recvLoop (region : Nat) (filter : List Nat) :
    List (List Nat) → Address × Nat → List Round × Outcome
  | [], _ => ([], .transportExhausted)
  | dgram :: rest, last =>
    match read_u8_veccheck dgram HEADER with
    | none => ([], .eofError)
    | some (false, _) => ([], .headerMismatch)
    | some (true, body) =>
      match decodeEntries body last with
      | .err => ([], .eofError)
      | .ok sent last2 eol _ =>
        let req := sendPacket region filter last2.1 last2.2
        if eol then ([⟨sent, req⟩], .ok)
        else
          let r := recvLoop region filter rest last2
          (⟨sent, req⟩ :: r.1, r.2)

/-- SessionResult collects the observable behaviour of one query_raw
call: every request packet sent on the socket in order, every pair
delivered to the sink in order, and how the call terminated. -/
structure SessionResult where
  requests : List (List Nat)
  delivered : List (Address × Nat)
  outcome : Outcome
deriving DecidableEq, Repr

/-- roundsEntries concatenates, in order, the pairs delivered to the
sink across a list of rounds. -/
def roundsEntries : List Round → List (Address × Nat)
  | [] => []
  | r :: rs => r.entries ++ roundsEntries rs

/-- query_raw models MSQClient::query_raw from src/client.rs: it first
sends the request built from EMPTY_ADRESS and port 0, then runs recv.
Address::default() equals EMPTY_ADRESS and last_port starts at 0, which
is the initial cursor of recvLoop. -/
def query_raw (region : Nat) (filter : List Nat)
    (datagrams : List (List Nat)) : SessionResult :=
  let r := recvLoop region filter datagrams (EMPTY_ADRESS, 0)
  ⟨sendPacket region filter EMPTY_ADRESS 0 :: r.1.map Round.request,
    roundsEntries r.1, r.2⟩

/-- Region models the enum Region of src/region.rs. -/
inductive Region where
  | USEast
  | USWest
  | SouthAmerica
  | Europe
  | Asia
  | Australia
  | MiddleEast
  | Africa
  | All
deriving DecidableEq, Repr

/-- as_u8 models Region::as_u8 from src/region.rs. -/
def Region.as_u8 : Region → Nat
  | .USEast => 0x00
  | .USWest => 0x01
  | .SouthAmerica => 0x02
  | .Europe => 0x03
  | .Asia => 0x04
  | .Australia => 0x05
  | .MiddleEast => 0x06
  | .Africa => 0x07
  | .All => 0xFF

/-- from_u8 models Region::from_u8 from src/region.rs; none models the
Err("Invalid code") result. -/
def Region.from_u8 : Nat → Option Region
  | 0x00 => some .USEast
  | 0x01 => some .USWest
  | 0x02 => some .SouthAmerica
  | 0x03 => some .Europe
  | 0x04 => some .Asia
  | 0x05 => some .Australia
  | 0x06 => some .MiddleEast
  | 0x07 => some .Africa
  | 0xFF => some .All
  | _ => none

/-- RECOGNIZED lists the nine byte codes the region table recognizes. -/
def RECOGNIZED : List Nat := [0, 1, 2, 3, 4, 5, 6, 7, 0xFF]

/-- lastOr returns the last element of a list of address/port pairs, or
the given default when the list is empty; it tracks how last_address and
last_port evolve across deliveries in MSQClient::recv. -/
def lastOr : List (Address × Nat) → Address × Nat → Address × Nat
  | [], dflt => dflt
  | e :: es, _ => lastOr es e

/-- encodeEntries renders a list of address/port pairs as the wire bytes
of consecutive response entries: four address octets then the big-endian
port. -/
def encodeEntries : List (Address × Nat) → List Nat
  | [] => []
  | (ad, p) :: es =>
    ad.a :: ad.b :: ad.c :: ad.d :: (p / 256) :: (p % 256) :: encodeEntries es

/-! Helper lemmas -/

theorem foldl_utf8 (src : List Nat) (buf : List Nat) :
    src.foldl (fun acc ch => acc ++ utf8EncodeChar ch) buf = buf ++ utf8Str src := by
  induction src generalizing buf with
  | nil => simp [utf8Str]
  | cons c cs ih => simp [utf8Str, ih, List.append_assoc]

theorem write_cstring_eq (buf src : List Nat) :
    write_cstring buf src = buf ++ (utf8Str src ++ [0]) := by
  simp [write_cstring, foldl_utf8, List.append_assoc]

theorem lastOr_append (l1 l2 : List (Address × Nat)) (dflt : Address × Nat) :
    lastOr (l1 ++ l2) dflt = lastOr l2 (lastOr l1 dflt) := by
  induction l1 generalizing dflt with
  | nil => simp [lastOr]
  | cons e es ih => simp [lastOr, ih]

theorem decodeEntries_ok_spec (bytes : List Nat) (last : Address × Nat)
    (sent : List (Address × Nat)) (last2 : Address × Nat) (eol : Bool) (rem : List Nat)
    (h : decodeEntries bytes last = .ok sent last2 eol rem) :
    last2 = lastOr sent last ∧ ∀ e ∈ sent, e.1 ≠ EMPTY_ADRESS := by
  induction bytes, last using decodeEntries.induct generalizing sent last2 eol rem with
  | case1 last =>
    rw [decodeEntries.eq_def] at h
    simp at h
    obtain ⟨hs, hl, he, hr⟩ := h
    subst hs; subst hl
    simp [lastOr]
  | case2 head x => simp [decodeEntries.eq_def] at h
  | case3 head head1 x => simp [decodeEntries.eq_def] at h
  | case4 head head1 head2 x => simp [decodeEntries.eq_def] at h
  | case5 a b c d rest last hemp =>
    rw [decodeEntries.eq_def] at h
    simp [hemp] at h
    obtain ⟨hs, hl, he, hr⟩ := h
    subst hs; subst hl
    simp [lastOr]
  | case6 a b c d last hne =>
    rw [decodeEntries.eq_def] at h
    simp [hne] at h
  | case7 a b c d last hne head =>
    rw [decodeEntries.eq_def] at h
    simp [hne] at h
  | case8 a b c d last hne p0 p1 rest2 s1 l1 e1 r1 hres ih =>
    rw [decodeEntries.eq_def] at h
    simp [hne, hres] at h
    obtain ⟨hs, hl, he, hr⟩ := h
    subst hs; subst hl
    obtain ⟨ihl, ihm⟩ := ih s1 l1 e1 r1 hres
    constructor
    · rw [ihl]
      simp [lastOr]
    · intro e he
      rcases List.mem_cons.mp he with he1 | he2
      · rw [he1]
        exact hne
      · exact ihm e he2
  | case9 a b c d last hne p0 p1 rest2 hres ih =>
    rw [decodeEntries.eq_def] at h
    simp [hne, hres] at h

theorem recvLoop_nil (region : Nat) (filter : List Nat) (last : Address × Nat) :
    recvLoop region filter [] last = ([], .transportExhausted) := rfl

theorem recvLoop_cons_hdr_eof (region : Nat) (filter : List Nat) (d : List Nat)
    (rest : List (List Nat)) (last : Address × Nat)
    (hvc : read_u8_veccheck d HEADER = none) :
    recvLoop region filter (d :: rest) last = ([], .eofError) := by
  rw [recvLoop.eq_def]
  simp [hvc]

theorem recvLoop_cons_mismatch (region : Nat) (filter : List Nat) (d : List Nat)
    (rest : List (List Nat)) (last : Address × Nat) (r : List Nat)
    (hvc : read_u8_veccheck d HEADER = some (false, r)) :
    recvLoop region filter (d :: rest) last = ([], .headerMismatch) := by
  rw [recvLoop.eq_def]
  simp [hvc]

theorem recvLoop_cons_entry_eof (region : Nat) (filter : List Nat) (d : List Nat)
    (rest : List (List Nat)) (last : Address × Nat) (body : List Nat)
    (hvc : read_u8_veccheck d HEADER = some (true, body))
    (hde : decodeEntries body last = .err) :
    recvLoop region filter (d :: rest) last = ([], .eofError) := by
  rw [recvLoop.eq_def]
  simp [hvc, hde]

theorem recvLoop_cons_eol (region : Nat) (filter : List Nat) (d : List Nat)
    (rest : List (List Nat)) (last : Address × Nat) (body : List Nat)
    (sent : List (Address × Nat)) (last2 : Address × Nat) (rem : List Nat)
    (hvc : read_u8_veccheck d HEADER = some (true, body))
    (hde : decodeEntries body last = .ok sent last2 true rem) :
    recvLoop region filter (d :: rest) last =
      ([⟨sent, sendPacket region filter last2.1 last2.2⟩], .ok) := by
  rw [recvLoop.eq_def]
  simp [hvc, hde]

theorem recvLoop_cons_more (region : Nat) (filter : List Nat) (d : List Nat)
    (rest : List (List Nat)) (last : Address × Nat) (body : List Nat)
    (sent : List (Address × Nat)) (last2 : Address × Nat) (rem : List Nat)
    (hvc : read_u8_veccheck d HEADER = some (true, body))
    (hde : decodeEntries body last = .ok sent last2 false rem) :
    recvLoop region filter (d :: rest) last =
      (⟨sent, sendPacket region filter last2.1 last2.2⟩ ::
          (recvLoop region filter rest last2).1,
        (recvLoop region filter rest last2).2) := by
  rw [recvLoop.eq_def]
  simp [hvc, hde]

theorem recvLoop_entries_ne_empty (region : Nat) (filter : List Nat)
    (ds : List (List Nat)) (last : Address × Nat) (p : Address × Nat)
    (hp : p ∈ roundsEntries (recvLoop region filter ds last).1) :
    p.1 ≠ EMPTY_ADRESS := by
  induction ds generalizing last with
  | nil => simp [recvLoop_nil, roundsEntries] at hp
  | cons d rest ih =>
    rcases hvc : read_u8_veccheck d HEADER with _ | ⟨b, body⟩
    · rw [recvLoop_cons_hdr_eof region filter d rest last hvc] at hp
      simp [roundsEntries] at hp
    · cases b with
      | false =>
        rw [recvLoop_cons_mismatch region filter d rest last body hvc] at hp
        simp [roundsEntries] at hp
      | true =>
        rcases hde : decodeEntries body last with ⟨sent, last2, eol, rem⟩ | _
        · cases eol with
          | true =>
            rw [recvLoop_cons_eol region filter d rest last body sent last2 rem hvc hde] at hp
            simp [roundsEntries] at hp
            exact (decodeEntries_ok_spec body last sent last2 true rem hde).2 p hp
          | false =>
            rw [recvLoop_cons_more region filter d rest last body sent last2 rem hvc hde] at hp
            simp only [roundsEntries, List.mem_append] at hp
            rcases hp with hp1 | hp2
            · exact (decodeEntries_ok_spec body last sent last2 false rem hde).2 p hp1
            · exact ih last2 hp2
        · rw [recvLoop_cons_entry_eof region filter d rest last body hvc hde] at hp
          simp [roundsEntries] at hp

theorem veccheck_false_of_take_ne (buf : List Nat) (cmp : List Nat)
    (hlen : cmp.length ≤ buf.length) (hne : buf.take cmp.length ≠ cmp) :
    ∃ r, read_u8_veccheck buf cmp = some (false, r) := by
  induction cmp generalizing buf with
  | nil => simp at hne
  | cons cch cmp ih =>
    cases buf with
    | nil => simp at hlen
    | cons sch buf =>
      by_cases hc : cch = sch
      · subst hc
        have hne2 : buf.take cmp.length ≠ cmp := by
          intro hh
          exact hne (by simp [List.take_succ_cons, hh])
        obtain ⟨r, hr⟩ := ih buf (by simp at hlen ⊢; omega) hne2
        exact ⟨r, by rw [read_u8_veccheck, if_neg (by simp), hr]⟩
      · exact ⟨buf, by rw [read_u8_veccheck, if_pos hc]⟩

theorem utf8DecodeChar_encode (c : Nat) (hv : c < 0x110000) (rest : List Nat) :
    utf8DecodeChar (utf8EncodeChar c ++ rest) = some (c, rest) := by
  by_cases h1 : c < 0x80
  · rw [utf8EncodeChar, if_pos h1]
    simp only [List.cons_append, List.nil_append]
    rw [utf8DecodeChar.eq_def]
    simp [h1]
  · by_cases h2 : c < 0x800
    · have e1 : ¬ (0xC0 + c / 64 < 0x80) := by omega
      have e2 : ¬ (0xC0 + c / 64 < 0xC0) := by omega
      have e3 : 0xC0 + c / 64 < 0xE0 := by omega
      have e4 : 0x80 ≤ 0x80 + c % 64 := by omega
      have e5 : 0x80 + c % 64 < 0xC0 := by omega
      rw [utf8EncodeChar, if_neg h1, if_pos h2]
      simp only [List.cons_append, List.nil_append]
      rw [utf8DecodeChar.eq_def]
      simp only [e1, e2, e3, e4, e5, if_pos, if_neg, if_true, if_false,
        ite_true, ite_false, and_true, true_and, and_self]
      simp
      omega
    · by_cases h3 : c < 0x10000
      · have e1 : ¬ (0xE0 + c / 4096 < 0x80) := by omega
        have e2 : ¬ (0xE0 + c / 4096 < 0xC0) := by omega
        have e3 : ¬ (0xE0 + c / 4096 < 0xE0) := by omega
        have e4 : 0xE0 + c / 4096 < 0xF0 := by omega
        have e5 : 0x80 ≤ 0x80 + c / 64 % 64 := by omega
        have e6 : 0x80 + c / 64 % 64 < 0xC0 := by omega
        have e7 : 0x80 ≤ 0x80 + c % 64 := by omega
        have e8 : 0x80 + c % 64 < 0xC0 := by omega
        rw [utf8EncodeChar, if_neg h1, if_neg h2, if_pos h3]
        simp only [List.cons_append, List.nil_append]
        rw [utf8DecodeChar.eq_def]
        simp only [e1, e2, e3, e4, e5, e6, e7, e8, if_pos, if_neg, if_true,
          if_false, ite_true, ite_false, and_true, true_and, and_self]
        simp
        omega
      · have e1 : ¬ (0xF0 + c / 262144 < 0x80) := by omega
        have e2 : ¬ (0xF0 + c / 262144 < 0xC0) := by omega
        have e3 : ¬ (0xF0 + c / 262144 < 0xE0) := by omega
        have e4 : ¬ (0xF0 + c / 262144 < 0xF0) := by omega
        have e5 : 0xF0 + c / 262144 < 0xF8 := by omega
        have e6 : 0x80 ≤ 0x80 + c / 4096 % 64 := by omega
        have e7 : 0x80 + c / 4096 % 64 < 0xC0 := by omega
        have e8 : 0x80 ≤ 0x80 + c / 64 % 64 := by omega
        have e9 : 0x80 + c / 64 % 64 < 0xC0 := by omega
        have e10 : 0x80 ≤ 0x80 + c % 64 := by omega
        have e11 : 0x80 + c % 64 < 0xC0 := by omega
        rw [utf8EncodeChar, if_neg h1, if_neg h2, if_neg h3]
        simp only [List.cons_append, List.nil_append]
        rw [utf8DecodeChar.eq_def]
        simp only [e1, e2, e3, e4, e5, e6, e7, e8, e9, e10, e11, if_pos, if_neg,
          if_true, if_false, ite_true, ite_false, and_true, true_and, and_self]
        simp
        omega

theorem utf8EncodeChar_ne_nil (c : Nat) : utf8EncodeChar c ≠ [] := by
  rw [utf8EncodeChar]
  by_cases h1 : c < 0x80
  · simp [h1]
  · by_cases h2 : c < 0x800
    · simp [h1, h2]
    · by_cases h3 : c < 0x10000 <;> simp [h1, h2, h3]

theorem utf8DecodeLoop_nil (fuel : Nat) : utf8DecodeLoop fuel [] = some [] := by
  cases fuel <;> rfl

theorem utf8DecodeLoop_step (f : Nat) (l res : List Nat) (c : Nat)
    (hl : l ≠ []) (hd : utf8DecodeChar l = some (c, res)) :
    utf8DecodeLoop (f + 1) l = (utf8DecodeLoop f res).map (fun cs => c :: cs) := by
  cases l with
  | nil => exact absurd rfl hl
  | cons b0 rest0 =>
    rw [utf8DecodeLoop.eq_def]
    simp [hd]

theorem utf8DecodeLoop_utf8Str (s : List Nat) (fuel : Nat)
    (hv : ∀ c ∈ s, c < 0x110000) (hf : s.length ≤ fuel) :
    utf8DecodeLoop fuel (utf8Str s) = some s := by
  induction s generalizing fuel with
  | nil => exact utf8DecodeLoop_nil fuel
  | cons c cs ih =>
    cases fuel with
    | zero => simp at hf
    | succ f =>
      rw [utf8Str]
      have hl : utf8EncodeChar c ++ utf8Str cs ≠ [] := by
        intro hh
        exact utf8EncodeChar_ne_nil c (List.append_eq_nil.mp hh).1
      rw [utf8DecodeLoop_step f (utf8EncodeChar c ++ utf8Str cs) (utf8Str cs) c hl
        (utf8DecodeChar_encode c (hv c (by simp)) (utf8Str cs))]
      rw [ih f (fun x hx => hv x (by simp [hx])) (by simp at hf; omega)]
      rfl

theorem length_le_utf8Str_length (s : List Nat) : s.length ≤ (utf8Str s).length := by
  induction s with
  | nil => simp [utf8Str]
  | cons c cs ih =>
    rw [utf8Str, List.length_append, List.length_cons]
    have : 1 ≤ (utf8EncodeChar c).length := by
      cases he : utf8EncodeChar c with
      | nil => exact absurd he (utf8EncodeChar_ne_nil c)
      | cons x xs => simp
    omega

theorem utf8Decode_utf8Str (s : List Nat) (hv : ∀ c ∈ s, c < 0x110000) :
    utf8Decode (utf8Str s) = some s :=
  utf8DecodeLoop_utf8Str s (utf8Str s).length hv (length_le_utf8Str_length s)

theorem utf8EncodeChar_pos (c : Nat) (h0 : 0 < c) : ∀ x ∈ utf8EncodeChar c, x ≠ 0 := by
  intro x hx
  rw [utf8EncodeChar] at hx
  by_cases h1 : c < 0x80
  · simp [h1] at hx
    omega
  · by_cases h2 : c < 0x800
    · simp [h1, h2] at hx
      rcases hx with h | h <;> omega
    · by_cases h3 : c < 0x10000
      · simp [h1, h2, h3] at hx
        rcases hx with h | h | h <;> omega
      · simp [h1, h2, h3] at hx
        rcases hx with h | h | h | h <;> omega

theorem utf8Str_pos (s : List Nat) (hv : ∀ c ∈ s, 0 < c) :
    ∀ x ∈ utf8Str s, x ≠ 0 := by
  induction s with
  | nil => simp [utf8Str]
  | cons c cs ih =>
    intro x hx
    rw [utf8Str] at hx
    rcases List.mem_append.mp hx with h | h
    · exact utf8EncodeChar_pos c (hv c (by simp)) x h
    · exact ih (fun y hy => hv y (by simp [hy])) x h

theorem takeWhile_append_zero (l : List Nat) (h : ∀ x ∈ l, x ≠ 0) :
    (l ++ [0]).takeWhile (fun b => b != 0) = l := by
  induction l with
  | nil => simp [List.takeWhile]
  | cons a l ih =>
    have ha : (a != 0) = true := by simpa using h a (by simp)
    simp only [List.cons_append, List.takeWhile_cons, ha]
    simp [ih (fun x hx => h x (by simp [hx]))]

/-! Claim theorems -/

set_option maxRecDepth 10000 in
/-- C7: the region code mapping is a bijection on the nine recognized
values: from_u8 inverts as_u8 on every Region, as_u8 inverts from_u8 on
each of the nine recognized byte codes, and from_u8 rejects every other
byte value. -/
theorem region_bijection :
    (∀ r : Region, Region.from_u8 (Region.as_u8 r) = some r) ∧
    (∀ b : Fin 256,
      (Region.from_u8 b.val).map Region.as_u8 =
        if b.val ∈ RECOGNIZED then some b.val else none) := by
  constructor
  · intro r; cases r <;> rfl
  · decide

/-- C2 counterexample: with buffer bytes 00 00 and expected bytes FF FF
there are enough bytes, yet the call consumes only one byte (the
remainder has length 1, not buffer length minus expected length): the
cursor does not advance by the length of the expected sequence on a
mismatching call. -/
theorem veccheck_mismatch_counterexample :
    read_u8_veccheck [0, 0] [255, 255] = some (false, [0]) ∧
    ([0] : List Nat).length ≠
      ([0, 0] : List Nat).length - ([255, 255] : List Nat).length := by
  decide

/-- C2 amended: a matching call consumes exactly the length of the
expected sequence; a mismatching call consumes at least one byte and at
most the length of the expected sequence (it stops right after the first
mismatching byte), so the cursor can end lower on a mismatch than on a
match. -/
theorem veccheck_cursor_advance (buf cmp : List Nat) (b : Bool) (buf1 : List Nat)
    (h : read_u8_veccheck buf cmp = some (b, buf1)) :
    (b = true → buf.length = buf1.length + cmp.length) ∧
    (b = false →
      buf1.length + 1 ≤ buf.length ∧ buf.length ≤ buf1.length + cmp.length) := by
  induction cmp generalizing buf b buf1 with
  | nil =>
    simp [read_u8_veccheck] at h
    obtain ⟨hb, hbuf⟩ := h
    subst hb; subst hbuf
    simp
  | cons cch cmp ih =>
    cases buf with
    | nil => simp [read_u8_veccheck] at h
    | cons sch buf =>
      by_cases hc : cch = sch
      · rw [read_u8_veccheck, if_neg (by simp [hc])] at h
        have hih := ih buf b buf1 h
        refine ⟨fun hb => ?_, fun hb => ?_⟩
        · have := hih.1 hb
          simp only [List.length_cons]
          omega
        · have := hih.2 hb
          simp only [List.length_cons]
          omega
      · rw [read_u8_veccheck, if_pos hc, Option.some.injEq, Prod.mk.injEq] at h
        obtain ⟨hb, hbuf⟩ := h
        subst hb; subst hbuf
        refine ⟨fun hb => by simp at hb, fun _ => ?_⟩
        simp only [List.length_cons]
        omega

/-- C2 amended witness: a concrete mismatching call that consumed two of
the three buffer bytes while the expected sequence has length two. -/
theorem veccheck_cursor_advance_witness :
    read_u8_veccheck [9, 8, 7] [9, 9] = some (false, [7]) ∧
    ((false = true →
        ([9, 8, 7] : List Nat).length =
          ([7] : List Nat).length + ([9, 9] : List Nat).length) ∧
     (false = false →
        ([7] : List Nat).length + 1 ≤ ([9, 8, 7] : List Nat).length ∧
          ([9, 8, 7] : List Nat).length ≤
            ([7] : List Nat).length + ([9, 9] : List Nat).length)) :=
  ⟨by decide, veccheck_cursor_advance [9, 8, 7] [9, 9] false [7] (by decide)⟩

/-- C1: evaluation of the code at the failing input.  The transport
delivers a single datagram consisting of the header and the terminator
entry; query_raw returns success and delivers nothing, but it sends TWO
requests: the initial one and a further one sent after the terminator
was observed, because the sleep-and-send at the bottom of the receive
loop runs even on the iteration that set end_of_list. -/
theorem extra_request_after_terminator :
    (query_raw 3 [] [[255, 255, 255, 255, 0x66, 0x0A, 0, 0, 0, 0, 0, 0]]).requests.length = 2 ∧
    (query_raw 3 [] [[255, 255, 255, 255, 0x66, 0x0A, 0, 0, 0, 0, 0, 0]]).delivered = [] ∧
    (query_raw 3 [] [[255, 255, 255, 255, 0x66, 0x0A, 0, 0, 0, 0, 0, 0]]).outcome = Outcome.ok := by
  decide

/-- C10: the terminator test keys on the four address octets alone.
After any run of non-terminator entries, an entry whose address is
all-zero ends the list: every preceding entry is delivered, nothing is
delivered for the terminator entry, end_of_list is set, and whatever
bytes follow the four zero octets (in particular the terminator's two
port bytes, of any value) are left unread in the buffer. -/
theorem terminator_by_address_only (es : List (Address × Nat)) (rest : List Nat)
    (last : Address × Nat) (hne : ∀ e ∈ es, e.1 ≠ EMPTY_ADRESS) :
    decodeEntries (encodeEntries es ++ 0 :: 0 :: 0 :: 0 :: rest) last =
      .ok es (lastOr es last) true rest := by
  induction es generalizing last with
  | nil =>
    rw [encodeEntries, List.nil_append, decodeEntries.eq_def]
    simp [EMPTY_ADRESS, lastOr]
  | cons e es ih =>
    obtain ⟨ad, p⟩ := e
    have hne1 : ad ≠ EMPTY_ADRESS := hne (ad, p) (by simp)
    have hne2 : ∀ x ∈ es, x.1 ≠ EMPTY_ADRESS := fun x hx => hne x (by simp [hx])
    have heta : Address.mk ad.a ad.b ad.c ad.d = ad := rfl
    have hp : p / 256 * 256 + p % 256 = p := by omega
    rw [encodeEntries, List.cons_append, List.cons_append, List.cons_append,
        List.cons_append, List.cons_append, List.cons_append, decodeEntries.eq_def]
    simp only [heta, if_neg hne1, hp, ih (ad, p) hne2, lastOr]

/-- C10 witness: one concrete entry followed by a terminator whose port
bytes are 171 and 205; the entry is delivered, the terminator is not,
and its two port bytes remain unread. -/
theorem terminator_by_address_only_witness :
    decodeEntries
        (encodeEntries [(Address.mk 1 2 3 4, 26)] ++ 0 :: 0 :: 0 :: 0 :: [171, 205])
        (EMPTY_ADRESS, 0) =
      .ok [(Address.mk 1 2 3 4, 26)]
        (lastOr [(Address.mk 1 2 3 4, 26)] (EMPTY_ADRESS, 0)) true [171, 205] :=
  terminator_by_address_only [(Address.mk 1 2 3 4, 26)] [171, 205]
    (EMPTY_ADRESS, 0) (by decide)

/-- C9: every request packet built by the engine is the byte 0x31, the
region code byte, the zero-terminated UTF-8 rendering of the cursor as
dotted-quad-colon-port, then the zero-terminated filter text; the
rendering of the empty cursor is exactly the text 0.0.0.0:0, and the
first request of every query is built from the empty cursor. -/
theorem request_packet_shape (region : Nat) (filter : List Nat) (ad : Address)
    (port : Nat) (ds : List (List Nat)) :
    sendPacket region filter ad port =
      0x31 :: region ::
        ((utf8Str (formatAddress ad port) ++ [0]) ++ (utf8Str filter ++ [0])) ∧
    formatAddress EMPTY_ADRESS 0 = [48, 46, 48, 46, 48, 46, 48, 58, 48] ∧
    (query_raw region filter ds).requests.head? =
      some (sendPacket region filter EMPTY_ADRESS 0) := by
  refine ⟨?_, by decide, rfl⟩
  simp [sendPacket, writeU8, write_cstring_eq, List.append_assoc]

/-- C3 counterexample: a datagram with a valid header whose remaining
bytes are 01 02 03 04 05 leaves five bytes (fewer than six) after zero
decoded entries, yet the session errors with an UnexpectedEof instead of
stopping the entry loop without error. -/
theorem short_remainder_error_counterexample :
    (recvLoop 3 [] [[255, 255, 255, 255, 102, 10, 1, 2, 3, 4, 5]] (EMPTY_ADRESS, 0)).2 =
      Outcome.eofError := by
  decide

/-- C3 amended: when fewer than 6 bytes remain, the entry loop stops
without error only when exactly 0 bytes remain or when at least four
bytes remain and the next four are the all-zero terminator; a nonempty
remainder of 1 to 5 bytes whose first four bytes are not the terminator
makes the session fail with an UnexpectedEof error. -/
theorem short_remainder_behavior (bytes : List Nat) (last : Address × Nat)
    (h : bytes.length < 6) :
    (bytes = [] → decodeEntries bytes last = .ok [] last false []) ∧
    (bytes ≠ [] → bytes.take 4 ≠ [0, 0, 0, 0] → decodeEntries bytes last = .err) ∧
    (bytes.take 4 = [0, 0, 0, 0] →
      decodeEntries bytes last = .ok [] last true (bytes.drop 4)) := by
  rcases bytes with _ | ⟨a, _ | ⟨b, _ | ⟨c, _ | ⟨d, _ | ⟨e, _ | ⟨f, tail⟩⟩⟩⟩⟩⟩
  · exact ⟨fun _ => rfl, fun hne => absurd rfl hne, fun ht => by simp at ht⟩
  · exact ⟨fun he => by simp at he, fun _ _ => rfl, fun ht => by simp at ht⟩
  · exact ⟨fun he => by simp at he, fun _ _ => rfl, fun ht => by simp at ht⟩
  · exact ⟨fun he => by simp at he, fun _ _ => rfl, fun ht => by simp at ht⟩
  · refine ⟨fun he => by simp at he, fun _ ht => ?_, fun ht => ?_⟩
    · have hadr : Address.mk a b c d ≠ EMPTY_ADRESS := by
        intro hh
        apply ht
        have : a = 0 ∧ b = 0 ∧ c = 0 ∧ d = 0 := by
          simpa [EMPTY_ADRESS, Address.mk.injEq] using hh
        simp [this.1, this.2.1, this.2.2.1, this.2.2.2]
      rw [decodeEntries.eq_def]
      simp [hadr]
    · simp only [List.take] at ht
      have : a = 0 ∧ b = 0 ∧ c = 0 ∧ d = 0 := by simpa using ht
      obtain ⟨rfl, rfl, rfl, rfl⟩ := this
      rfl
  · refine ⟨fun he => by simp at he, fun _ ht => ?_, fun ht => ?_⟩
    · have hadr : Address.mk a b c d ≠ EMPTY_ADRESS := by
        intro hh
        apply ht
        have : a = 0 ∧ b = 0 ∧ c = 0 ∧ d = 0 := by
          simpa [EMPTY_ADRESS, Address.mk.injEq] using hh
        simp [this.1, this.2.1, this.2.2.1, this.2.2.2]
      rw [decodeEntries.eq_def]
      simp [hadr]
    · simp only [List.take] at ht
      have : a = 0 ∧ b = 0 ∧ c = 0 ∧ d = 0 := by simpa using ht
      obtain ⟨rfl, rfl, rfl, rfl⟩ := this
      rfl
  · exfalso
    simp [List.length_cons] at h
    omega

/-- C3 amended witness: a one-byte remainder makes the entry loop
fail. -/
theorem short_remainder_behavior_witness :
    decodeEntries [1] (EMPTY_ADRESS, 0) = LoopResult.err :=
  (short_remainder_behavior [1] (EMPTY_ADRESS, 0) (by decide)).2.1
    (by decide) (by decide)

/-- C4: cursor continuity.  The request sent at the end of round i
(rounds counted from 0) is built from the last non-terminator entry
delivered up to and including round i, or from the cursor the loop
started with when no entry has been delivered yet; delivered entries
never include the terminator, so its port is never used as a cursor. -/
theorem cursor_continuity (region : Nat) (filter : List Nat) (ds : List (List Nat))
    (last : Address × Nat) (i : Nat) (r : Round)
    (h : ((recvLoop region filter ds last).1).get? i = some r) :
    r.request =
      sendPacket region filter
        (lastOr (roundsEntries (((recvLoop region filter ds last).1).take (i + 1))) last).1
        (lastOr (roundsEntries (((recvLoop region filter ds last).1).take (i + 1))) last).2 := by
  induction ds generalizing last i r with
  | nil => simp [recvLoop_nil] at h
  | cons d rest ih =>
    rcases hvc : read_u8_veccheck d HEADER with _ | ⟨b, body⟩
    · rw [recvLoop_cons_hdr_eof region filter d rest last hvc] at h
      simp at h
    · cases b with
      | false =>
        rw [recvLoop_cons_mismatch region filter d rest last body hvc] at h
        simp at h
      | true =>
        rcases hde : decodeEntries body last with ⟨sent, last2, eol, rem⟩ | _
        · cases eol with
          | true =>
            rw [recvLoop_cons_eol region filter d rest last body sent last2 rem hvc hde]
            rw [recvLoop_cons_eol region filter d rest last body sent last2 rem hvc hde] at h
            cases i with
            | zero =>
              simp only [List.get?] at h
              obtain rfl : (⟨sent, sendPacket region filter last2.1 last2.2⟩ : Round) = r :=
                Option.some.inj h
              have hl2 : last2 = lastOr sent last :=
                (decodeEntries_ok_spec body last sent last2 true rem hde).1
              simp [List.take, roundsEntries, hl2]
            | succ j =>
              simp [List.get?] at h
          | false =>
            rw [recvLoop_cons_more region filter d rest last body sent last2 rem hvc hde]
            rw [recvLoop_cons_more region filter d rest last body sent last2 rem hvc hde] at h
            have hl2 : last2 = lastOr sent last :=
              (decodeEntries_ok_spec body last sent last2 false rem hde).1
            cases i with
            | zero =>
              simp only [List.get?] at h
              obtain rfl : (⟨sent, sendPacket region filter last2.1 last2.2⟩ : Round) = r :=
                Option.some.inj h
              simp [List.take, roundsEntries, hl2]
            | succ j =>
              simp only [List.get?] at h
              have := ih last2 j r h
              rw [this]
              simp only [List.take_succ_cons, roundsEntries, lastOr_append, hl2]
        · rw [recvLoop_cons_entry_eof region filter d rest last body hvc hde] at h
          simp at h

/-- C4 witness: the spec's synthetic two-page session.  Page 1 delivers
1.2.3.4:100 and 5.6.7.8:200, page 2 is an empty terminator page; the
request sent after page 2 (round index 1) is still built from the cursor
5.6.7.8:200, the last non-terminator entry delivered. -/
theorem cursor_continuity_witness :
    (Round.mk [] [49, 3, 53, 46, 54, 46, 55, 46, 56, 58, 50, 48, 48, 0, 0]).request =
      sendPacket 3 []
        (lastOr (roundsEntries (((recvLoop 3 []
            [[255, 255, 255, 255, 102, 10, 1, 2, 3, 4, 0, 100, 5, 6, 7, 8, 0, 200],
              [255, 255, 255, 255, 102, 10, 0, 0, 0, 0, 0, 0]]
            (EMPTY_ADRESS, 0)).1).take 2)) (EMPTY_ADRESS, 0)).1
        (lastOr (roundsEntries (((recvLoop 3 []
            [[255, 255, 255, 255, 102, 10, 1, 2, 3, 4, 0, 100, 5, 6, 7, 8, 0, 200],
              [255, 255, 255, 255, 102, 10, 0, 0, 0, 0, 0, 0]]
            (EMPTY_ADRESS, 0)).1).take 2)) (EMPTY_ADRESS, 0)).2 :=
  cursor_continuity 3 []
    [[255, 255, 255, 255, 102, 10, 1, 2, 3, 4, 0, 100, 5, 6, 7, 8, 0, 200],
      [255, 255, 255, 255, 102, 10, 0, 0, 0, 0, 0, 0]]
    (EMPTY_ADRESS, 0) 1
    (Round.mk [] [49, 3, 53, 46, 54, 46, 55, 46, 56, 58, 50, 48, 48, 0, 0])
    (by decide)

/-- C5: the all-zero address/port pair is never delivered to the sink:
every pair a query session delivers has an address different from
0.0.0.0. -/
theorem terminator_never_delivered (region : Nat) (filter : List Nat)
    (ds : List (List Nat)) (p : Address × Nat)
    (hp : p ∈ (query_raw region filter ds).delivered) :
    p.1 ≠ EMPTY_ADRESS := by
  apply recvLoop_entries_ne_empty region filter ds (EMPTY_ADRESS, 0) p
  simpa [query_raw] using hp

/-- C5 witness: the pair 1.2.3.4:26 delivered by a concrete session has
a non-terminator address. -/
theorem terminator_never_delivered_witness :
    ((Address.mk 1 2 3 4, 26) ∈
        (query_raw 3 []
          [[255, 255, 255, 255, 102, 10, 1, 2, 3, 4, 0, 26, 0, 0, 0, 0, 0, 0]]).delivered) ∧
    (Address.mk 1 2 3 4, 26).1 ≠ EMPTY_ADRESS :=
  ⟨by decide,
    terminator_never_delivered 3 []
      [[255, 255, 255, 255, 102, 10, 1, 2, 3, 4, 0, 26, 0, 0, 0, 0, 0, 0]]
      (Address.mk 1 2 3 4, 26) (by decide)⟩

/-- C6: a received datagram of at least six bytes whose first six bytes
differ from FF FF FF FF 66 0A makes the session return the
header-mismatch error immediately: no round is produced, so no address
from that datagram is delivered and no request is sent after the
error. -/
theorem header_mismatch_aborts (region : Nat) (filter : List Nat) (d : List Nat)
    (rest : List (List Nat)) (last : Address × Nat)
    (h6 : 6 ≤ d.length) (hm : d.take 6 ≠ HEADER) :
    recvLoop region filter (d :: rest) last = ([], Outcome.headerMismatch) := by
  obtain ⟨r, hr⟩ := veccheck_false_of_take_ne d HEADER (by simpa [HEADER] using h6)
    (by simpa [HEADER] using hm)
  exact recvLoop_cons_mismatch region filter d rest last r hr

/-- C6 witness: a datagram differing from the header only in its last
byte (0x0B instead of 0x0A) aborts the session with the mismatch error,
delivering nothing and sending nothing. -/
theorem header_mismatch_aborts_witness :
    (6 ≤ ([255, 255, 255, 255, 102, 11] : List Nat).length ∧
      ([255, 255, 255, 255, 102, 11] : List Nat).take 6 ≠ HEADER) ∧
    recvLoop 7 [] [[255, 255, 255, 255, 102, 11]] (EMPTY_ADRESS, 0) =
      ([], Outcome.headerMismatch) :=
  ⟨⟨by decide, by decide⟩,
    header_mismatch_aborts 7 [] [255, 255, 255, 255, 102, 11] [] (EMPTY_ADRESS, 0)
      (by decide) (by decide)⟩

/-- C8: for every string (list of code points, each nonzero and a valid
code point) write_cstring emits exactly the UTF-8 bytes of the string
followed by a single 0x00 terminator, and decoding the emitted bytes up
to the terminator reproduces the string exactly. -/
theorem cstring_roundtrip (s : List Nat) (hv : ∀ c ∈ s, 0 < c ∧ c < 0x110000) :
    write_cstring [] s = utf8Str s ++ [0] ∧
    utf8Decode ((write_cstring [] s).takeWhile (fun b => b != 0)) = some s := by
  have h1 : write_cstring [] s = utf8Str s ++ [0] := by
    rw [write_cstring_eq]
    simp
  refine ⟨h1, ?_⟩
  rw [h1, takeWhile_append_zero (utf8Str s) (utf8Str_pos s (fun c hc => (hv c hc).1))]
  exact utf8Decode_utf8Str s (fun c hc => (hv c hc).2)

/-- C8 witness: the string with code points c, a, f, e-acute (two UTF-8
bytes) and a CJK character (three UTF-8 bytes) round-trips. -/
theorem cstring_roundtrip_witness :
    write_cstring [] [99, 97, 102, 233, 20013] =
      utf8Str [99, 97, 102, 233, 20013] ++ [0] ∧
    utf8Decode ((write_cstring [] [99, 97, 102, 233, 20013]).takeWhile
        (fun b => b != 0)) = some [99, 97, 102, 233, 20013] :=
  cstring_roundtrip [99, 97, 102, 233, 20013] (by decide)

end Msq
